import Mathlib

/-!
# Pomodoro timer: session state machine of `src/app.js`

A shallow embedding of the `PomodoroTimer` class.  The class fields that carry session
state become the structure `PomodoroTimer`; the parts of the browser the class talks to
(the table of active intervals, whether Web Audio is available, the notifications it
raises, the values it paints) are collected in `Page`.  A method is a function
`Page → Page`; the two methods that can throw, `playSound` and `showNotification`, return
`Except`, and a method that calls them yields the page left behind when the call ends,
whether it returned or was cut short by the exception (nothing in the class catches it, so
the assignments made before the throw stay).

Numbers are JavaScript numbers in the source.  The embedding covers integer values:
seconds are `Int` (the countdown may be decremented below zero when a duration is not
positive) and the completed-session counter is `Nat` (it starts at 0 and is only ever
incremented).
-/

namespace Pomodoro

/-! ## Data model -/

/-- Session fields of the class, as assigned by the constructor (lines 3-11). -/
structure PomodoroTimer where
  workDuration : Int
  shortBreakDuration : Int
  longBreakDuration : Int
  timeRemaining : Int
  isRunning : Bool
  isWorkSession : Bool
  completedPomodoros : Nat
  intervalId : Option Nat
  totalTime : Int
deriving DecidableEq, Repr

/-- One call of `updateDisplay`: the countdown and the total it is painted against. -/
structure Shown where
  timeRemaining : Int
  totalTime : Int
  isWorkSession : Bool
deriving DecidableEq, Repr

/-- The timer object together with the browser state it acts on. -/
structure Page where
  timer : PomodoroTimer
  /-- Ids of the intervals created by `setInterval` and not yet cleared. -/
  intervals : List Nat
  /-- The id the next `setInterval` call will return. -/
  nextId : Nat
  /-- Whether the browser has `window.AudioContext` or `window.webkitAudioContext`, so that
  the constructor call on line 178 succeeds. -/
  audio : Bool
  /-- Messages passed to `showNotification`, oldest first. -/
  notifications : List String
  /-- Every `updateDisplay` call, oldest first. -/
  displayed : List Shown
deriving DecidableEq, Repr

/-! ## Browser primitives -/

/-- Browser `setInterval`: registers a new active interval and returns its id
(the id is `p.nextId`). -/
def setInterval (p : Page) : Page :=
  { p with intervals := p.intervals ++ [p.nextId], nextId := p.nextId + 1 }

/-- Browser `clearInterval(id)`: removes the interval `id`; `null` and unknown ids are
ignored. -/
def clearInterval (id : Option Nat) (p : Page) : Page :=
  match id with
  | none => p
  | some i => { p with intervals := p.intervals.filter (fun j => j != i) }

/-! ## Methods of the class -/

/-- Source `getBreakDuration` (lines 126-130). -/
def getBreakDuration (t : PomodoroTimer) : Int :=
  if t.completedPomodoros % 4 = 0 ∧ t.completedPomodoros ≠ 0 then t.longBreakDuration
  else t.shortBreakDuration

/-- Source `updateProgress` (line 147): the ratio that drives the progress ring. -/
def progress (t : PomodoroTimer) : ℚ :=
  (t.timeRemaining : ℚ) / (t.totalTime : ℚ)

/-- Source `updateDisplay` (lines 132-144): paints the current countdown. -/
def updateDisplay (p : Page) : Page :=
  { p with displayed := p.displayed ++
      [{ timeRemaining := p.timer.timeRemaining, totalTime := p.timer.totalTime,
         isWorkSession := p.timer.isWorkSession }] }

/-- Source `playSound` (lines 176-193).  Line 178 constructs
`new (window.AudioContext || window.webkitAudioContext)()` without a guard: where neither
exists the call throws a `TypeError`. -/
def playSound (p : Page) : Except String Page :=
  if p.audio then .ok p else .error "TypeError"

/-- Source `showNotification` (lines 164-174): `playSound()` first, then the message reaches
the user either as a system notification or as a toast.  An exception of `playSound` is not
caught. -/
def showNotification (message : String) (p : Page) : Except String Page :=
  match playSound p with
  | .ok q => .ok { q with notifications := q.notifications ++ [message] }
  | .error e => .error e

/-- Source `pause` (lines 85-91). -/
def pause (p : Page) : Page :=
  clearInterval p.timer.intervalId { p with timer := { p.timer with isRunning := false } }

/-- Source `switchSession` (lines 118-124). -/
def switchSession (p : Page) : Page :=
  let t1 := { p.timer with isWorkSession := !p.timer.isWorkSession }
  let t2 := { t1 with totalTime := if t1.isWorkSession then t1.workDuration
                                   else getBreakDuration t1 }
  let t3 := { t2 with timeRemaining := t2.totalTime }
  updateDisplay { p with timer := t3 }

/-- Source `timerComplete` (lines 104-116).  When `showNotification` throws, the call ends
there: `pause()` and the increment have happened, `switchSession()` has not. -/
def timerComplete (p : Page) : Page :=
  let p1 := pause p
  if p1.timer.isWorkSession then
    let p2 := { p1 with timer := { p1.timer with
      completedPomodoros := p1.timer.completedPomodoros + 1 } }
    match showNotification "Work session complete! Time for a break." p2 with
    | .ok p3 => switchSession p3
    | .error _ => p2
  else
    match showNotification "Break complete! Ready for work?" p1 with
    | .ok p3 => switchSession p3
    | .error _ => p1

/-- The callback handed to `setInterval` in `start` (lines 74-81).  `timerComplete()` is its
last statement, so an exception leaving it ends the callback with nothing skipped. -/
def tickCallback (p : Page) : Page :=
  let p1 := { p with timer := { p.timer with timeRemaining := p.timer.timeRemaining - 1 } }
  let p2 := updateDisplay p1
  if p2.timer.timeRemaining ≤ 0 then timerComplete p2 else p2

/-- One firing of the tick source: the callback runs only while an interval is active. -/
def tick (p : Page) : Page :=
  if p.intervals.isEmpty then p else tickCallback p

/-- Source `start` (lines 66-83). -/
def start (p : Page) : Page :=
  if !p.timer.isRunning then
    let p1 := { p with timer := { p.timer with isRunning := true } }
    let p2 := setInterval p1
    { p2 with timer := { p2.timer with intervalId := some p1.nextId } }
  else p

/-- Source `reset` (lines 93-97). -/
def reset (p : Page) : Page :=
  let p1 := pause p
  updateDisplay { p1 with timer := { p1.timer with
    timeRemaining := if p1.timer.isWorkSession then p1.timer.workDuration
                     else getBreakDuration p1.timer } }

/-- Source `skip` (lines 99-102). -/
def skip (p : Page) : Page :=
  switchSession (pause p)

/-- The `change` handler of the work-duration input (lines 49-55); `v` is the value of the
field, in minutes. -/
def workDurationChange (v : Int) (p : Page) : Page :=
  let p1 := { p with timer := { p.timer with workDuration := v * 60 } }
  if !p1.timer.isRunning && p1.timer.isWorkSession then
    updateDisplay { p1 with timer := { p1.timer with timeRemaining := p1.timer.workDuration } }
  else p1

/-- The `change` handler of the short-break input (lines 57-59). -/
def shortBreakChange (v : Int) (p : Page) : Page :=
  { p with timer := { p.timer with shortBreakDuration := v * 60 } }

/-- The `change` handler of the long-break input (lines 61-63). -/
def longBreakChange (v : Int) (p : Page) : Page :=
  { p with timer := { p.timer with longBreakDuration := v * 60 } }

/-- The constructor (lines 2-16) with the three durations, in seconds, as parameters, in a
browser where Web Audio is available (`audio = true`) or not. -/
def fresh (audio : Bool) (w s l : Int) : Page :=
  updateDisplay
    { timer :=
        { workDuration := w, shortBreakDuration := s, longBreakDuration := l,
          timeRemaining := w, isRunning := false, isWorkSession := true,
          completedPomodoros := 0, intervalId := none, totalTime := w },
      intervals := [], nextId := 1, audio := audio, notifications := [], displayed := [] }

/-- The constructor as written: 25, 5 and 15 minutes. -/
def new (audio : Bool) : Page := fresh audio (25 * 60) (5 * 60) (15 * 60)

/-! ## Runs -/

/-- The triggers that can reach the controller: the four buttons, the tick source and the
three configuration fields. -/
inductive Op where
  | start
  | pause
  | reset
  | skip
  | tick
  | setWork (v : Int)
  | setShort (v : Int)
  | setLong (v : Int)
deriving DecidableEq, Repr

/-- Effect of one trigger. -/
def step (op : Op) (p : Page) : Page :=
  match op with
  | .start => start p
  | .pause => pause p
  | .reset => reset p
  | .skip => skip p
  | .tick => tick p
  | .setWork v => workDurationChange v p
  | .setShort v => shortBreakChange v p
  | .setLong v => longBreakChange v p

/-- Effect of a sequence of triggers, first one first. -/
def run (ops : List Op) (p : Page) : Page :=
  ops.foldl (fun q op => step op q) p

/-- A configuration edit enters a positive number of minutes; the other triggers carry
no data. -/
def Op.positive : Op → Bool
  | .setWork v => decide (0 < v)
  | .setShort v => decide (0 < v)
  | .setLong v => decide (0 < v)
  | _ => true

/-- The trigger edits one of the two break durations. -/
def Op.isBreakEdit : Op → Bool
  | .setShort _ | .setLong _ => true
  | _ => false

/-- The sequence stays inside the current session: it consists of `start`, `pause` and
ticks that fire with more than one second remaining, so none of them completes it. -/
def staysInSession : List Op → Page → Bool
  | [], _ => true
  | .start :: ops, p => staysInSession ops (start p)
  | .pause :: ops, p => staysInSession ops (pause p)
  | .tick :: ops, p => decide (1 < p.timer.timeRemaining) && staysInSession ops (tick p)
  | _ :: _, _ => false

/-- Fires the tick source `n` times. -/
def ticks (n : Nat) (p : Page) : Page :=
  tick^[n] p

/-- Runs the current session until `timerComplete` fires: `start()`, then one tick per
remaining second, and at least one (the callback tests the countdown after decrementing). -/
def completeSession (p : Page) : Page :=
  ticks (max 1 p.timer.timeRemaining.toNat) (start p)

/-- The page right after the `k`-th work session has completed, every session before it
(work and break alike) having been run to its end. -/
def afterWork : Nat → Page → Page
  | 0, p => p
  | 1, p => completeSession p
  | k + 2, p => completeSession (completeSession (afterWork (k + 1) p))

/-! ## State predicates -/

/-- Interval discipline: an idle controller has no active interval, a running one has
exactly one, the one recorded in `intervalId`. -/
def SingleSource (p : Page) : Prop :=
  if p.timer.isRunning then
    p.timer.intervalId.isSome ∧ p.intervals = p.timer.intervalId.toList
  else p.intervals = []

instance (p : Page) : Decidable (SingleSource p) := by
  unfold SingleSource; infer_instance

/-- The three configured durations and the countdown are positive, and no negative
countdown has ever been painted. -/
def Positive (p : Page) : Prop :=
  0 < p.timer.workDuration ∧ 0 < p.timer.shortBreakDuration ∧
  0 < p.timer.longBreakDuration ∧ 0 < p.timer.timeRemaining ∧
  ∀ d ∈ p.displayed, 0 ≤ d.timeRemaining

instance (p : Page) : Decidable (Positive p) := by
  unfold Positive; infer_instance

end Pomodoro

namespace Pomodoro

/-! ## Elementary facts about single methods -/

theorem ticks_succ (n : Nat) (p : Page) : ticks (n + 1) p = tick (ticks n p) := by
  simp only [ticks, Function.iterate_succ_apply']

theorem ticks_zero (p : Page) : ticks 0 p = p := rfl

theorem showNotification_of_audio (m : String) (p : Page) (ha : p.audio = true) :
    showNotification m p = .ok { p with notifications := p.notifications ++ [m] } := by
  simp [showNotification, playSound, ha]

theorem pause_audio (p : Page) : (pause p).audio = p.audio := by
  cases hid : p.timer.intervalId <;> simp [pause, clearInterval, hid]

theorem timerComplete_audio (p : Page) : (timerComplete p).audio = p.audio := by
  cases ha : p.audio <;> cases hw : p.timer.isWorkSession <;>
    cases hid : p.timer.intervalId <;>
    simp [timerComplete, pause, clearInterval, showNotification, playSound, switchSession,
      updateDisplay, hw, hid, ha]

theorem tick_audio (p : Page) : (tick p).audio = p.audio := by
  unfold tick
  split
  · rfl
  · unfold tickCallback
    simp only
    split
    · rw [timerComplete_audio]; rfl
    · rfl

theorem step_audio (op : Op) (p : Page) : (step op p).audio = p.audio := by
  cases op with
  | start => cases hr : p.timer.isRunning <;> simp [step, start, setInterval, hr]
  | pause => exact pause_audio p
  | reset => simpa [step, reset, updateDisplay] using pause_audio p
  | skip => simpa [step, skip, switchSession, updateDisplay] using pause_audio p
  | tick => exact tick_audio p
  | setWork v =>
    cases hr : p.timer.isRunning <;> cases hw : p.timer.isWorkSession <;>
      simp [step, workDurationChange, updateDisplay, hr, hw]
  | setShort v => rfl
  | setLong v => rfl

theorem run_audio (ops : List Op) (p : Page) : (run ops p).audio = p.audio := by
  induction ops generalizing p with
  | nil => rfl
  | cons op ops ih =>
    have hstep : run (op :: ops) p = run ops (step op p) := rfl
    rw [hstep, ih, step_audio]

/-- A tick that does not exhaust the countdown only decrements it. -/
theorem tick_timer_of_lt (p : Page) (hi : p.intervals ≠ []) (h : 1 < p.timer.timeRemaining) :
    (tick p).timer = { p.timer with timeRemaining := p.timer.timeRemaining - 1 } ∧
    (tick p).intervals = p.intervals ∧ (tick p).nextId = p.nextId ∧
    (tick p).notifications = p.notifications := by
  have hne : p.intervals.isEmpty = false := by
    cases hp : p.intervals with
    | nil => exact absurd hp hi
    | cons a l => rfl
  have hlt : ¬ (p.timer.timeRemaining - 1 ≤ 0) := by omega
  simp [tick, tickCallback, updateDisplay, hne, hlt]

/-- While more seconds remain than ticks have fired, the session keeps counting down. -/
theorem ticks_timer_of_lt (n : Nat) (p : Page) (hi : p.intervals ≠ [])
    (h : (n : Int) < p.timer.timeRemaining) :
    (ticks n p).timer = { p.timer with timeRemaining := p.timer.timeRemaining - n } ∧
    (ticks n p).intervals = p.intervals ∧ (ticks n p).nextId = p.nextId ∧
    (ticks n p).notifications = p.notifications ∧ (ticks n p).audio = p.audio := by
  induction n with
  | zero => simp [ticks_zero]
  | succ k ih =>
    have hk : (k : Int) < p.timer.timeRemaining := by push_cast at h; omega
    obtain ⟨h1, h2, h3, h4, h5⟩ := ih hk
    have hi2 : (ticks k p).intervals ≠ [] := by rw [h2]; exact hi
    have hlt : 1 < (ticks k p).timer.timeRemaining := by
      rw [h1]; push_cast at h; simp only; omega
    obtain ⟨g1, g2, g3, g4⟩ := tick_timer_of_lt (ticks k p) hi2 hlt
    rw [ticks_succ]
    refine ⟨?_, by rw [g2, h2], by rw [g3, h3], by rw [g4, h4], by rw [tick_audio, h5]⟩
    rw [g1, h1]
    simp only [PomodoroTimer.mk.injEq, and_true, true_and]
    push_cast; omega

/-- With Web Audio available `timerComplete` runs to its end: these are its timer fields,
whatever the interval table holds. -/
theorem timerComplete_timer (p : Page) (ha : p.audio = true) :
    (timerComplete p).timer =
      (switchSession { p with timer := { p.timer with
        isRunning := false,
        completedPomodoros :=
          if p.timer.isWorkSession then p.timer.completedPomodoros + 1
          else p.timer.completedPomodoros } }).timer := by
  cases hw : p.timer.isWorkSession <;> cases hid : p.timer.intervalId <;>
    simp [timerComplete, pause, clearInterval, showNotification, playSound, switchSession,
      updateDisplay, hw, hid, ha]

/-- Without Web Audio `timerComplete` stops at the throw: the controller is paused and a
finished work session is counted, but the session is not switched, nothing is repainted and
no message is delivered. -/
theorem timerComplete_of_no_audio (p : Page) (ha : p.audio = false) :
    (timerComplete p).timer = { p.timer with
        isRunning := false,
        completedPomodoros :=
          if p.timer.isWorkSession then p.timer.completedPomodoros + 1
          else p.timer.completedPomodoros } ∧
    (timerComplete p).notifications = p.notifications ∧
    (timerComplete p).displayed = p.displayed ∧
    (timerComplete p).nextId = p.nextId := by
  cases hw : p.timer.isWorkSession <;> cases hid : p.timer.intervalId <;>
    simp [timerComplete, pause, clearInterval, showNotification, playSound, hw, hid, ha]

/-- A tick fired with at most one second left runs `timerComplete` on the decremented
state. -/
theorem tick_of_le_one (p : Page) (hi : p.intervals ≠ []) (h : p.timer.timeRemaining ≤ 1) :
    tick p = timerComplete (updateDisplay { p with timer :=
      { p.timer with timeRemaining := p.timer.timeRemaining - 1 } }) := by
  have hne : p.intervals.isEmpty = false := by
    cases hp : p.intervals with
    | nil => exact absurd hp hi
    | cons a l => rfl
  have hle : p.timer.timeRemaining - 1 ≤ 0 := by omega
  simp [tick, tickCallback, updateDisplay, hne, hle]

/-- The tick that reaches zero runs `timerComplete` on the decremented state. -/
theorem tick_timer_of_eq_one (p : Page) (hi : p.intervals ≠ []) (h : p.timer.timeRemaining = 1) :
    tick p = timerComplete
      (updateDisplay { p with timer := { p.timer with timeRemaining := 0 } }) := by
  have hne : p.intervals.isEmpty = false := by
    cases hp : p.intervals with
    | nil => exact absurd hp hi
    | cons a l => rfl
  simp [tick, tickCallback, updateDisplay, hne, h]

end Pomodoro

namespace Pomodoro

/-! ## Running one session to its end -/

theorem start_of_idle (p : Page) (h : p.timer.isRunning = false) :
    (start p).timer = { p.timer with isRunning := true, intervalId := some p.nextId } ∧
    (start p).intervals = p.intervals ++ [p.nextId] ∧ (start p).nextId = p.nextId + 1 ∧
    (start p).notifications = p.notifications ∧ (start p).audio = p.audio ∧
    (start p).displayed = p.displayed := by
  simp [start, setInterval, h]

theorem timerComplete_intervals (p : Page) (i : Nat) (hid : p.timer.intervalId = some i)
    (hi : p.intervals = [i]) : (timerComplete p).intervals = [] := by
  cases ha : p.audio <;> cases hw : p.timer.isWorkSession <;>
    simp [timerComplete, pause, clearInterval, showNotification, playSound, switchSession,
      updateDisplay, hw, hid, hi, ha]

/-- Starting an idle session with `n + 1` seconds left and firing `n + 1` ticks ends it:
the page is the one `timerComplete` leaves from the started session at zero. -/
theorem ticks_start_complete (p : Page) (n : Nat) (hr : p.timer.isRunning = false)
    (ht : p.timer.timeRemaining = n + 1) :
    ∃ q : Page, ticks (n + 1) (start p) = timerComplete q ∧
      q.timer = { p.timer with isRunning := true, intervalId := some p.nextId,
                               timeRemaining := 0 } ∧
      q.intervals = p.intervals ++ [p.nextId] ∧ q.nextId = p.nextId + 1 ∧
      q.notifications = p.notifications ∧ q.audio = p.audio := by
  obtain ⟨s1, s2, s3, s4, s5, -⟩ := start_of_idle p hr
  have hi : (start p).intervals ≠ [] := by rw [s2]; simp
  have hlt : (n : Int) < (start p).timer.timeRemaining := by rw [s1]; simp only; omega
  obtain ⟨t1, t2, t3, t4, t5⟩ := ticks_timer_of_lt n (start p) hi hlt
  have hi2 : (ticks n (start p)).intervals ≠ [] := by rw [t2]; exact hi
  have h1 : (ticks n (start p)).timer.timeRemaining = 1 := by
    rw [t1, s1]; simp only; omega
  refine ⟨_, by rw [ticks_succ]; exact tick_timer_of_eq_one _ hi2 h1, ?_, ?_, ?_, ?_, ?_⟩
  · simp [updateDisplay, t1, s1]
  · simp [updateDisplay, t2, s2]
  · simp [updateDisplay, t3, s3]
  · simp [updateDisplay, t4, s4]
  · simp [updateDisplay, t5, s5]

/-- What a completed session leaves behind, field by field, when Web Audio is available. -/
theorem completeSession_spec (p : Page) (ha : p.audio = true)
    (hr : p.timer.isRunning = false)
    (hi : p.intervals = []) (ht : 0 < p.timer.timeRemaining) :
    (completeSession p).timer.isWorkSession = (!p.timer.isWorkSession) ∧
    (completeSession p).timer.completedPomodoros =
      (if p.timer.isWorkSession then p.timer.completedPomodoros + 1
       else p.timer.completedPomodoros) ∧
    (completeSession p).timer.totalTime =
      (if p.timer.isWorkSession then
        (if (p.timer.completedPomodoros + 1) % 4 = 0 then p.timer.longBreakDuration
         else p.timer.shortBreakDuration)
       else p.timer.workDuration) ∧
    (completeSession p).timer.timeRemaining = (completeSession p).timer.totalTime ∧
    (completeSession p).timer.isRunning = false ∧
    (completeSession p).intervals = [] ∧
    (completeSession p).timer.workDuration = p.timer.workDuration ∧
    (completeSession p).timer.shortBreakDuration = p.timer.shortBreakDuration ∧
    (completeSession p).timer.longBreakDuration = p.timer.longBreakDuration ∧
    (completeSession p).audio = true := by
  obtain ⟨n, hn⟩ : ∃ n : Nat, p.timer.timeRemaining = n + 1 :=
    ⟨(p.timer.timeRemaining - 1).toNat, by omega⟩
  have hnat : max 1 p.timer.timeRemaining.toNat = n + 1 := by omega
  obtain ⟨q, hq, q1, q2, q3, q4, q5⟩ := ticks_start_complete p n hr hn
  have hqi : (timerComplete q).intervals = [] :=
    timerComplete_intervals q p.nextId (by rw [q1]) (by rw [q2, hi]; rfl)
  have hqa : q.audio = true := by rw [q5, ha]
  have hqt := timerComplete_timer q hqa
  have hqa2 : (timerComplete q).audio = true := by rw [timerComplete_audio, hqa]
  unfold completeSession
  rw [hnat, hq, hqi, hqt, q1, hqa2]
  cases hw : p.timer.isWorkSession <;>
    simp [switchSession, updateDisplay, getBreakDuration, hw]

/-- What the end of a work session leaves behind when Web Audio is missing: the session is
counted and the controller paused, but it is still the same Work session, at zero. -/
theorem completeSession_of_no_audio (p : Page) (ha : p.audio = false)
    (hr : p.timer.isRunning = false) (hi : p.intervals = [])
    (ht : 0 < p.timer.timeRemaining) :
    (completeSession p).timer = { p.timer with
        isRunning := false, intervalId := some p.nextId, timeRemaining := 0,
        completedPomodoros :=
          if p.timer.isWorkSession then p.timer.completedPomodoros + 1
          else p.timer.completedPomodoros } ∧
    (completeSession p).intervals = [] ∧
    (completeSession p).notifications = p.notifications ∧
    (completeSession p).audio = false ∧
    (completeSession p).nextId = p.nextId + 1 := by
  obtain ⟨n, hn⟩ : ∃ n : Nat, p.timer.timeRemaining = n + 1 :=
    ⟨(p.timer.timeRemaining - 1).toNat, by omega⟩
  have hnat : max 1 p.timer.timeRemaining.toNat = n + 1 := by omega
  obtain ⟨q, hq, q1, q2, q3, q4, q5⟩ := ticks_start_complete p n hr hn
  have hqi : (timerComplete q).intervals = [] :=
    timerComplete_intervals q p.nextId (by rw [q1]) (by rw [q2, hi]; rfl)
  have hqa : q.audio = false := by rw [q5, ha]
  obtain ⟨a1, a2, -, a4⟩ := timerComplete_of_no_audio q hqa
  have hqa2 : (timerComplete q).audio = false := by rw [timerComplete_audio, hqa]
  unfold completeSession
  rw [hnat, hq, hqi, a1, a2, a4, q1, q3, q4, hqa2]
  simp

end Pomodoro

namespace Pomodoro

/-! ## Single sessions and single commands -/

/-- With Web Audio available, for every positive work duration `D` and any break durations:
after `start()` and exactly `D` ticks the fresh controller is an idle break session with
`completedPomodoros = 1` and `timeRemaining = totalTime = shortBreakDuration`, and after any
smaller number of ticks it is still a Work session with `completedPomodoros = 0`. -/
theorem work_session_runs_to_short_break_of_audio (D : Nat) (hD : 0 < D) (sb lb : Int) :
    ((ticks D (start (fresh true D sb lb))).timer.isWorkSession = false ∧
      (ticks D (start (fresh true D sb lb))).timer.completedPomodoros = 1 ∧
      (ticks D (start (fresh true D sb lb))).timer.isRunning = false ∧
      (ticks D (start (fresh true D sb lb))).timer.timeRemaining = sb ∧
      (ticks D (start (fresh true D sb lb))).timer.totalTime = sb) ∧
    (∀ (a : Bool) (n : Nat), n < D →
      (ticks n (start (fresh a D sb lb))).timer.isWorkSession = true ∧
      (ticks n (start (fresh a D sb lb))).timer.completedPomodoros = 0) := by
  refine ⟨?_, ?_⟩
  · have ht : (fresh true D sb lb).timer.timeRemaining = D := rfl
    have hc : completeSession (fresh true D sb lb) = ticks D (start (fresh true D sb lb)) := by
      unfold completeSession
      rw [ht, Int.toNat_ofNat, max_eq_right hD]
    obtain ⟨c1, c2, c3, c4, c5, -⟩ :=
      completeSession_spec (fresh true D sb lb) rfl rfl rfl (by rw [ht]; exact_mod_cast hD)
    rw [hc] at c1 c2 c3 c4 c5
    have c3b : (ticks D (start (fresh true D sb lb))).timer.totalTime = sb := by
      rw [c3]; simp [fresh, updateDisplay]
    exact ⟨by rw [c1]; rfl, by rw [c2]; rfl, c5, by rw [c4, c3b], c3b⟩
  · intro a n hn
    have ht : (fresh a D sb lb).timer.timeRemaining = D := rfl
    obtain ⟨s1, s2, -⟩ := start_of_idle (fresh a D sb lb) rfl
    have hne : (start (fresh a D sb lb)).intervals ≠ [] := by rw [s2]; simp
    have hlt : (n : Int) < (start (fresh a D sb lb)).timer.timeRemaining := by
      rw [s1]; simp only; rw [ht]; exact_mod_cast hn
    obtain ⟨t1, -⟩ := ticks_timer_of_lt n (start (fresh a D sb lb)) hne hlt
    rw [t1, s1]
    exact ⟨rfl, rfl⟩

/-- C1 at a failing input: the default controller in a browser without Web Audio is started
and ticks 1500 times.  The last tick calls `timerComplete`, which pauses and counts the
session, then `playSound` throws before `switchSession`: the controller is left idle in the
Work session at `timeRemaining = 0` with `totalTime = 1500`, not in a break at 300.  The
2 second scenario ends the same way. -/
theorem C1_work_session_not_switched_without_audio :
    ((ticks 1500 (start (new false))).timer.isWorkSession = true ∧
      (ticks 1500 (start (new false))).timer.completedPomodoros = 1 ∧
      (ticks 1500 (start (new false))).timer.isRunning = false ∧
      (ticks 1500 (start (new false))).timer.timeRemaining = 0 ∧
      (ticks 1500 (start (new false))).timer.totalTime = 1500 ∧
      (ticks 1500 (start (new false))).timer.shortBreakDuration = 300 ∧
      (ticks 1500 (start (new false))).notifications = []) ∧
    ((ticks 2 (start (fresh false 2 1 900))).timer.isWorkSession = true ∧
      (ticks 2 (start (fresh false 2 1 900))).timer.completedPomodoros = 1 ∧
      (ticks 2 (start (fresh false 2 1 900))).timer.timeRemaining = 0 ∧
      (ticks 2 (start (fresh false 2 1 900))).timer.totalTime = 2) := by
  have hc : completeSession (new false) = ticks 1500 (start (new false)) := rfl
  obtain ⟨c1, -, c3, -⟩ := completeSession_of_no_audio (new false) rfl rfl rfl (by decide)
  rw [hc] at c1 c3
  refine ⟨?_, by decide⟩
  rw [c1, c3]
  exact ⟨rfl, rfl, rfl, rfl, rfl, rfl, rfl⟩

/-- With Web Audio available, `timerComplete()` on a Work session holding `c` completed
sessions yields a break session with `c + 1` completed sessions whose `totalTime` and
`timeRemaining` are the long break when `c + 1` is a multiple of 4 and the short break
otherwise. -/
theorem timerComplete_work_of_audio (p : Page) (ha : p.audio = true)
    (hw : p.timer.isWorkSession = true) :
    (timerComplete p).timer.isWorkSession = false ∧
    (timerComplete p).timer.completedPomodoros = p.timer.completedPomodoros + 1 ∧
    (timerComplete p).timer.totalTime =
      (if 4 ∣ p.timer.completedPomodoros + 1 then p.timer.longBreakDuration
       else p.timer.shortBreakDuration) ∧
    (timerComplete p).timer.timeRemaining = (timerComplete p).timer.totalTime := by
  refine ⟨?_, ?_, ?_, ?_⟩
  · rw [timerComplete_timer p ha]; simp [switchSession, updateDisplay, hw]
  · rw [timerComplete_timer p ha]; simp [switchSession, updateDisplay, hw]
  · rw [timerComplete_timer p ha]
    simp [switchSession, updateDisplay, getBreakDuration, hw, Nat.dvd_iff_mod_eq_zero]
  · rw [timerComplete_timer p ha]; simp [switchSession, updateDisplay, hw]

/-- The rule of `getBreakDuration()`: the long break exactly for a positive multiple of 4,
the short break in every other case, 0 included. -/
theorem getBreakDuration_rule (t : PomodoroTimer) :
    getBreakDuration t =
      (if 4 ∣ t.completedPomodoros ∧ 0 < t.completedPomodoros then t.longBreakDuration
       else t.shortBreakDuration) ∧
    (t.completedPomodoros = 0 → getBreakDuration t = t.shortBreakDuration) := by
  refine ⟨?_, ?_⟩
  · simp only [getBreakDuration, Nat.dvd_iff_mod_eq_zero, Nat.pos_iff_ne_zero]
  · intro h0
    simp [getBreakDuration, h0]

/-- C2 at a failing input: in a browser without Web Audio the 1500th tick of the default
controller calls `timerComplete()` on a Work session with `completedPomodoros = 0`.  The call
counts the session and then stops at the throw of `playSound`: the page it leaves is still
the Work session with `totalTime = 1500` and `timeRemaining = 0`, not a break session with
`totalTime = timeRemaining = shortBreakDuration = 300`. -/
theorem C2_timerComplete_stops_before_switchSession :
    ∃ q : Page, ticks 1500 (start (new false)) = timerComplete q ∧
      (q.timer.isWorkSession = true ∧ q.timer.completedPomodoros = 0 ∧
        q.timer.shortBreakDuration = 300 ∧ q.audio = false) ∧
      ((timerComplete q).timer.isWorkSession = true ∧
        (timerComplete q).timer.completedPomodoros = 1 ∧
        (timerComplete q).timer.totalTime = 1500 ∧
        (timerComplete q).timer.timeRemaining = 0) := by
  obtain ⟨q, hq, q1, -, -, -, q5⟩ := ticks_start_complete (new false) 1499 rfl rfl
  have hqa : q.audio = false := by rw [q5]; rfl
  obtain ⟨a1, -⟩ := timerComplete_of_no_audio q hqa
  refine ⟨q, hq, ⟨by rw [q1]; rfl, by rw [q1]; rfl, by rw [q1]; rfl, hqa⟩, ?_⟩
  rw [a1, q1]
  exact ⟨rfl, rfl, rfl, rfl⟩

/-- C5: `skip()` keeps `completedPomodoros`, raises no notification, leaves the controller
idle, toggles `isWorkSession`, and sets `timeRemaining = totalTime` to the full duration of
the session entered: `workDuration` for Work, the break-rule duration for a break.  Scenario:
skipping the break that follows a 2 second work session gives Work with 2 seconds and still
one completed session. -/
theorem C5_skip_frame (p : Page) :
    (skip p).timer.completedPomodoros = p.timer.completedPomodoros ∧
    (skip p).notifications = p.notifications ∧
    (skip p).timer.isRunning = false ∧
    (skip p).timer.isWorkSession = (!p.timer.isWorkSession) ∧
    (skip p).timer.timeRemaining = (skip p).timer.totalTime ∧
    (skip p).timer.totalTime =
      (if p.timer.isWorkSession then getBreakDuration p.timer else p.timer.workDuration) ∧
    ((skip (ticks 2 (start (fresh true 2 1 900)))).timer.isWorkSession = true ∧
      (skip (ticks 2 (start (fresh true 2 1 900)))).timer.timeRemaining = 2 ∧
      (skip (ticks 2 (start (fresh true 2 1 900)))).timer.completedPomodoros = 1) := by
  refine ⟨?_, ?_, ?_, ?_, ?_, ?_, by decide, by decide, by decide⟩
  all_goals
    cases hid : p.timer.intervalId <;> cases hw : p.timer.isWorkSession <;>
      simp [skip, pause, clearInterval, switchSession, updateDisplay, getBreakDuration, hid, hw]

/-- C10: `reset()` is `pause()` followed by setting `timeRemaining` to the full duration of
the current session kind computed from the current configuration, then repainting; it keeps
`isWorkSession`, `completedPomodoros`, `totalTime` and the three durations, leaves
`isRunning = false`, and a second `reset()` changes neither the timer nor the interval
table. -/
theorem C10_reset_is_pause_then_reload (p : Page) :
    reset p = updateDisplay { pause p with timer := { (pause p).timer with
      timeRemaining := if p.timer.isWorkSession then p.timer.workDuration
                       else getBreakDuration p.timer } } ∧
    ((reset p).timer.isWorkSession = p.timer.isWorkSession ∧
      (reset p).timer.completedPomodoros = p.timer.completedPomodoros ∧
      (reset p).timer.totalTime = p.timer.totalTime ∧
      (reset p).timer.workDuration = p.timer.workDuration ∧
      (reset p).timer.shortBreakDuration = p.timer.shortBreakDuration ∧
      (reset p).timer.longBreakDuration = p.timer.longBreakDuration ∧
      (reset p).timer.isRunning = false) ∧
    ((reset (reset p)).timer = (reset p).timer ∧
      (reset (reset p)).intervals = (reset p).intervals ∧
      (reset (reset p)).nextId = (reset p).nextId ∧
      (reset (reset p)).notifications = (reset p).notifications) := by
  refine ⟨?_, ⟨?_, ?_, ?_, ?_, ?_, ?_, ?_⟩, ⟨?_, ?_, ?_, ?_⟩⟩
  all_goals
    cases hid : p.timer.intervalId <;> cases hw : p.timer.isWorkSession <;>
      simp [reset, pause, clearInterval, updateDisplay, getBreakDuration, hid, hw,
        List.filter_filter]

end Pomodoro

namespace Pomodoro

/-! ## Invariants of every run -/

theorem singleSource_fresh (a : Bool) (w s l : Int) : SingleSource (fresh a w s l) := by
  simp [SingleSource, fresh, updateDisplay]

theorem singleSource_idle (p : Page) (h : SingleSource p) (hr : p.timer.isRunning = false) :
    p.intervals = [] := by
  simpa [SingleSource, hr] using h

theorem singleSource_running (p : Page) (h : SingleSource p) (hr : p.timer.isRunning = true) :
    ∃ i, p.timer.intervalId = some i ∧ p.intervals = [i] := by
  simp only [SingleSource, hr, if_true] at h
  cases hid : p.timer.intervalId with
  | none => simp [hid] at h
  | some i => exact ⟨i, rfl, by simpa [hid] using h.2⟩

theorem pause_idle (p : Page) (h : SingleSource p) :
    (pause p).intervals = [] ∧ (pause p).timer.isRunning = false := by
  cases hr : p.timer.isRunning with
  | false =>
    have hi := singleSource_idle p h hr
    cases hid : p.timer.intervalId <;> simp [pause, clearInterval, hid, hi]
  | true =>
    obtain ⟨i, hid, hi⟩ := singleSource_running p h hr
    simp [pause, clearInterval, hid, hi]

theorem reset_idle (p : Page) (h : SingleSource p) :
    (reset p).intervals = [] ∧ (reset p).timer.isRunning = false := by
  obtain ⟨h1, h2⟩ := pause_idle p h
  exact ⟨by simpa [reset, updateDisplay] using h1, by simpa [reset, updateDisplay] using h2⟩

theorem switchSession_keeps (p : Page) :
    (switchSession p).intervals = p.intervals ∧
    (switchSession p).timer.isRunning = p.timer.isRunning ∧
    (switchSession p).timer.intervalId = p.timer.intervalId := by
  simp [switchSession, updateDisplay]

theorem skip_idle (p : Page) (h : SingleSource p) :
    (skip p).intervals = [] ∧ (skip p).timer.isRunning = false := by
  obtain ⟨h1, h2⟩ := pause_idle p h
  obtain ⟨k1, k2, -⟩ := switchSession_keeps (pause p)
  exact ⟨by rw [skip, k1, h1], by rw [skip, k2, h2]⟩

theorem timerComplete_idle (p : Page) (h : SingleSource p) :
    (timerComplete p).intervals = [] ∧ (timerComplete p).timer.isRunning = false := by
  obtain ⟨h1, h2⟩ := pause_idle p h
  have ha := pause_audio p
  cases hw : (pause p).timer.isWorkSession <;> cases hpa : p.audio <;>
    simp [timerComplete, hw, showNotification, playSound, switchSession, updateDisplay,
      h1, h2, ha, hpa]

theorem singleSource_of_idle (p : Page) (hi : p.intervals = [])
    (hr : p.timer.isRunning = false) : SingleSource p := by
  simp [SingleSource, hr, hi]

theorem singleSource_tick (p : Page) (h : SingleSource p) : SingleSource (tick p) := by
  unfold tick
  split
  · exact h
  · unfold tickCallback
    have hs : SingleSource (updateDisplay { p with timer :=
        { p.timer with timeRemaining := p.timer.timeRemaining - 1 } }) := by
      simpa [SingleSource, updateDisplay] using h
    simp only
    split
    · obtain ⟨a, b⟩ := timerComplete_idle _ hs
      exact singleSource_of_idle _ a b
    · exact hs

theorem singleSource_start (p : Page) (h : SingleSource p) : SingleSource (start p) := by
  cases hr : p.timer.isRunning with
  | false =>
    have hi := singleSource_idle p h hr
    simp [SingleSource, start, setInterval, hr, hi]
  | true =>
    have : start p = p := by simp [start, hr]
    rw [this]; exact h

theorem singleSource_step (op : Op) (p : Page) (h : SingleSource p) :
    SingleSource (step op p) := by
  cases op with
  | start => exact singleSource_start p h
  | pause => obtain ⟨a, b⟩ := pause_idle p h; exact singleSource_of_idle _ a b
  | reset => obtain ⟨a, b⟩ := reset_idle p h; exact singleSource_of_idle _ a b
  | skip => obtain ⟨a, b⟩ := skip_idle p h; exact singleSource_of_idle _ a b
  | tick => exact singleSource_tick p h
  | setWork v =>
    cases hr : p.timer.isRunning <;> cases hw : p.timer.isWorkSession <;>
      simpa [step, workDurationChange, SingleSource, updateDisplay, hr, hw] using h
  | setShort v => simpa [step, shortBreakChange, SingleSource] using h
  | setLong v => simpa [step, longBreakChange, SingleSource] using h

theorem singleSource_run (ops : List Op) (p : Page) (h : SingleSource p) :
    SingleSource (run ops p) := by
  induction ops generalizing p with
  | nil => exact h
  | cons op ops ih => exact ih (step op p) (singleSource_step op p h)

theorem positive_fresh (a : Bool) (w s l : Int) (hw : 0 < w) (hs : 0 < s) (hl : 0 < l) :
    Positive (fresh a w s l) := by
  refine ⟨hw, hs, hl, hw, ?_⟩
  intro d hd
  simp [fresh, updateDisplay] at hd
  rw [hd]; exact le_of_lt hw

theorem getBreakDuration_pos (t : PomodoroTimer) (hs : 0 < t.shortBreakDuration)
    (hl : 0 < t.longBreakDuration) : 0 < getBreakDuration t := by
  unfold getBreakDuration
  split
  · exact hl
  · exact hs

theorem positive_pause (p : Page) (h : Positive p) : Positive (pause p) := by
  cases hid : p.timer.intervalId <;> simpa [Positive, pause, clearInterval, hid] using h

theorem positive_switchSession (p : Page) (hw : 0 < p.timer.workDuration)
    (hs : 0 < p.timer.shortBreakDuration) (hl : 0 < p.timer.longBreakDuration)
    (hd : ∀ d ∈ p.displayed, 0 ≤ d.timeRemaining) : Positive (switchSession p) := by
  have hb : 0 < getBreakDuration { p.timer with isWorkSession := !p.timer.isWorkSession } :=
    getBreakDuration_pos _ hs hl
  have ht : 0 < (switchSession p).timer.timeRemaining := by
    cases hws : p.timer.isWorkSession
    · simpa [switchSession, updateDisplay, hws] using hw
    · simpa [switchSession, updateDisplay, hws] using hb
  refine ⟨by simpa [switchSession, updateDisplay] using hw,
    by simpa [switchSession, updateDisplay] using hs,
    by simpa [switchSession, updateDisplay] using hl, ht, ?_⟩
  intro d hmem
  have hmem2 : d ∈ p.displayed ∨ d.timeRemaining = (switchSession p).timer.timeRemaining := by
    simp only [switchSession, updateDisplay, List.mem_append, List.mem_singleton] at hmem ⊢
    rcases hmem with hmem | hmem
    · exact Or.inl hmem
    · exact Or.inr (by rw [hmem])
  rcases hmem2 with hmem2 | hmem2
  · exact hd d hmem2
  · rw [hmem2]; exact le_of_lt ht

theorem positive_timerComplete (p : Page) (ha : p.audio = true)
    (hw : 0 < p.timer.workDuration)
    (hs : 0 < p.timer.shortBreakDuration) (hl : 0 < p.timer.longBreakDuration)
    (hd : ∀ d ∈ p.displayed, 0 ≤ d.timeRemaining) : Positive (timerComplete p) := by
  have hp : 0 < (pause p).timer.workDuration ∧ 0 < (pause p).timer.shortBreakDuration ∧
      0 < (pause p).timer.longBreakDuration ∧ ∀ d ∈ (pause p).displayed, 0 ≤ d.timeRemaining := by
    cases hid : p.timer.intervalId <;> simpa [pause, clearInterval, hid] using ⟨hw, hs, hl, hd⟩
  obtain ⟨pw, ps, pl, pd⟩ := hp
  have hpa : (pause p).audio = true := by rw [pause_audio, ha]
  unfold timerComplete
  simp only
  split
  · rw [showNotification_of_audio _ _ (by exact hpa)]
    exact positive_switchSession _ pw ps pl pd
  · rw [showNotification_of_audio _ _ hpa]
    exact positive_switchSession _ pw ps pl pd

theorem positive_tick (p : Page) (ha : p.audio = true) (h : Positive p) :
    Positive (tick p) := by
  unfold tick
  split
  · exact h
  · obtain ⟨hw, hs, hl, ht, hd⟩ := h
    have hd2 : ∀ d ∈ (updateDisplay { p with timer :=
        { p.timer with timeRemaining := p.timer.timeRemaining - 1 } }).displayed,
        0 ≤ d.timeRemaining := by
      intro d hmem
      simp only [updateDisplay, List.mem_append, List.mem_singleton] at hmem
      rcases hmem with hmem | hmem
      · exact hd d hmem
      · rw [hmem]; simp only; omega
    unfold tickCallback
    simp only
    split
    · exact positive_timerComplete _ ha hw hs hl hd2
    · rename_i hgt
      refine ⟨hw, hs, hl, ?_, hd2⟩
      simp only [updateDisplay] at hgt ⊢
      omega

theorem positive_reset (p : Page) (h : Positive p) : Positive (reset p) := by
  obtain ⟨hw, hs, hl, ht, hd⟩ := positive_pause p h
  have hb := getBreakDuration_pos (pause p).timer hs hl
  have hnew : 0 < (reset p).timer.timeRemaining := by
    cases hws : (pause p).timer.isWorkSession
    · simpa [reset, updateDisplay, hws] using hb
    · simpa [reset, updateDisplay, hws] using hw
  refine ⟨hw, hs, hl, hnew, ?_⟩
  intro d hmem
  have hmem2 : d ∈ (pause p).displayed ∨ d.timeRemaining = (reset p).timer.timeRemaining := by
    simp only [reset, updateDisplay, List.mem_append, List.mem_singleton] at hmem ⊢
    rcases hmem with hmem | hmem
    · exact Or.inl hmem
    · exact Or.inr (by rw [hmem])
  rcases hmem2 with hmem2 | hmem2
  · exact hd d hmem2
  · rw [hmem2]; exact le_of_lt hnew

theorem positive_workDurationChange (v : Int) (hv : 0 < v) (p : Page) (h : Positive p) :
    Positive (workDurationChange v p) := by
  obtain ⟨hw, hs, hl, ht, hd⟩ := h
  have h60 : 0 < v * 60 := by omega
  unfold workDurationChange
  simp only
  split
  · refine ⟨h60, hs, hl, h60, ?_⟩
    intro d hmem
    simp only [updateDisplay, List.mem_append, List.mem_singleton] at hmem
    rcases hmem with hmem | hmem
    · exact hd d hmem
    · rw [hmem]; exact le_of_lt h60
  · exact ⟨h60, hs, hl, ht, hd⟩

theorem positive_step (op : Op) (hop : op.positive = true) (p : Page) (ha : p.audio = true)
    (h : Positive p) : Positive (step op p) := by
  cases op with
  | start =>
    cases hr : p.timer.isRunning <;> simpa [step, start, setInterval, Positive, hr] using h
  | pause => exact positive_pause p h
  | reset => exact positive_reset p h
  | skip =>
    obtain ⟨hw, hs, hl, -, hd⟩ := positive_pause p h
    exact positive_switchSession _ hw hs hl hd
  | tick => exact positive_tick p ha h
  | setWork v =>
    exact positive_workDurationChange v (by simpa [Op.positive] using hop) p h
  | setShort v =>
    have hv : 0 < v := by simpa [Op.positive] using hop
    obtain ⟨hw, hs, hl, ht, hd⟩ := h
    exact ⟨hw, (by show 0 < v * 60; omega), hl, ht, hd⟩
  | setLong v =>
    have hv : 0 < v := by simpa [Op.positive] using hop
    obtain ⟨hw, hs, hl, ht, hd⟩ := h
    exact ⟨hw, hs, (by show 0 < v * 60; omega), ht, hd⟩

theorem positive_run (ops : List Op) (hops : ∀ op ∈ ops, op.positive = true) (p : Page)
    (ha : p.audio = true) (h : Positive p) : Positive (run ops p) := by
  induction ops generalizing p with
  | nil => exact h
  | cons op ops ih =>
    exact ih (fun o ho => hops o (List.mem_cons_of_mem _ ho)) (step op p)
      (by rw [step_audio, ha])
      (positive_step op (hops op (List.mem_cons_self _ _)) p ha h)

end Pomodoro

namespace Pomodoro

/-! ## Whole runs -/

/-- C6: in every state reached from the fresh controller, with or without Web Audio, by any
sequence of triggers (start, pause, reset, skip, tick; the duration edits do not touch the
interval table and are allowed too) at most one tick source is active; `isRunning` holds exactly when one is active,
and it is then the one recorded in `intervalId`; `start()` on a running controller changes
nothing; `pause`, `reset`, `skip` and completion each leave no active tick source and
`isRunning = false`. -/
theorem C6_at_most_one_tick_source (a : Bool) (w s l : Int) (ops : List Op) :
    (run ops (fresh a w s l)).intervals.length ≤ 1 ∧
    ((run ops (fresh a w s l)).timer.isRunning = true ↔
      (run ops (fresh a w s l)).intervals.length = 1) ∧
    ((run ops (fresh a w s l)).timer.isRunning = true →
      ∃ i, (run ops (fresh a w s l)).timer.intervalId = some i ∧
        (run ops (fresh a w s l)).intervals = [i]) ∧
    ((run ops (fresh a w s l)).timer.isRunning = true →
      start (run ops (fresh a w s l)) = run ops (fresh a w s l)) ∧
    ((pause (run ops (fresh a w s l))).intervals = [] ∧
      (pause (run ops (fresh a w s l))).timer.isRunning = false) ∧
    ((reset (run ops (fresh a w s l))).intervals = [] ∧
      (reset (run ops (fresh a w s l))).timer.isRunning = false) ∧
    ((skip (run ops (fresh a w s l))).intervals = [] ∧
      (skip (run ops (fresh a w s l))).timer.isRunning = false) ∧
    ((timerComplete (run ops (fresh a w s l))).intervals = [] ∧
      (timerComplete (run ops (fresh a w s l))).timer.isRunning = false) := by
  have h : SingleSource (run ops (fresh a w s l)) :=
    singleSource_run ops _ (singleSource_fresh a w s l)
  generalize run ops (fresh a w s l) = p at h
  refine ⟨?_, ?_, singleSource_running p h, ?_, pause_idle p h, reset_idle p h,
    skip_idle p h, timerComplete_idle p h⟩
  · cases hr : p.timer.isRunning with
    | false => rw [singleSource_idle p h hr]; decide
    | true => obtain ⟨i, -, hi⟩ := singleSource_running p h hr; rw [hi]; simp
  · cases hr : p.timer.isRunning with
    | false => rw [singleSource_idle p h hr]; decide
    | true => obtain ⟨i, -, hi⟩ := singleSource_running p h hr; rw [hi]; simp
  · intro hr
    simp [start, hr]

/-- With Web Audio available and positive durations (initial ones and every edit), in
every reachable state
the countdown is non-negative, indeed never 0, and every value ever painted by
`updateDisplay` is non-negative; the tick that takes a running countdown from 1 to 0 runs
`timerComplete` at once, leaving the controller idle with no tick source, the session kind
toggled, and `timeRemaining = totalTime` equal to the positive full duration of the next
session. -/
theorem countdown_never_negative_of_audio (w s l : Int) (hw : 0 < w) (hs : 0 < s) (hl : 0 < l)
    (ops : List Op) (hops : ∀ op ∈ ops, op.positive = true) :
    0 ≤ (run ops (fresh true w s l)).timer.timeRemaining ∧
    (run ops (fresh true w s l)).timer.timeRemaining ≠ 0 ∧
    (∀ d ∈ (run ops (fresh true w s l)).displayed, 0 ≤ d.timeRemaining) ∧
    ((run ops (fresh true w s l)).timer.isRunning = true →
      (run ops (fresh true w s l)).timer.timeRemaining = 1 →
        tick (run ops (fresh true w s l)) =
          timerComplete (updateDisplay { run ops (fresh true w s l) with timer :=
            { (run ops (fresh true w s l)).timer with timeRemaining := 0 } }) ∧
        (tick (run ops (fresh true w s l))).timer.isRunning = false ∧
        (tick (run ops (fresh true w s l))).intervals = [] ∧
        (tick (run ops (fresh true w s l))).timer.isWorkSession =
          (!(run ops (fresh true w s l)).timer.isWorkSession) ∧
        (tick (run ops (fresh true w s l))).timer.timeRemaining =
          (tick (run ops (fresh true w s l))).timer.totalTime ∧
        (tick (run ops (fresh true w s l))).timer.totalTime =
          (if (run ops (fresh true w s l)).timer.isWorkSession then
            (if 4 ∣ (run ops (fresh true w s l)).timer.completedPomodoros + 1 then
              (run ops (fresh true w s l)).timer.longBreakDuration
             else (run ops (fresh true w s l)).timer.shortBreakDuration)
           else (run ops (fresh true w s l)).timer.workDuration) ∧
        0 < (tick (run ops (fresh true w s l))).timer.timeRemaining) := by
  have hp : Positive (run ops (fresh true w s l)) :=
    positive_run ops hops _ rfl (positive_fresh true w s l hw hs hl)
  have hss : SingleSource (run ops (fresh true w s l)) :=
    singleSource_run ops _ (singleSource_fresh true w s l)
  have hau : (run ops (fresh true w s l)).audio = true := by rw [run_audio]; rfl
  generalize run ops (fresh true w s l) = p at hp hss hau
  obtain ⟨pw, ps, pl, pt, pd⟩ := hp
  refine ⟨le_of_lt pt, ne_of_gt pt, pd, ?_⟩
  intro hr h1
  obtain ⟨i, hid, hi⟩ := singleSource_running p hss hr
  have hne : p.intervals ≠ [] := by rw [hi]; simp
  have htick := tick_timer_of_eq_one p hne h1
  have hpos := (positive_tick p hau ⟨pw, ps, pl, pt, pd⟩).2.2.2.1
  have hidle := timerComplete_idle
    (updateDisplay { p with timer := { p.timer with timeRemaining := 0 } })
    (by simpa [SingleSource, updateDisplay] using hss)
  refine ⟨htick, ?_, ?_, ?_, ?_, ?_, hpos⟩
  · rw [htick]; exact hidle.2
  · rw [htick]; exact hidle.1
  · rw [htick, timerComplete_timer _ (by simpa [updateDisplay] using hau)]; simp [switchSession, updateDisplay]
  · rw [htick, timerComplete_timer _ (by simpa [updateDisplay] using hau)]; simp [switchSession, updateDisplay]
  · rw [htick, timerComplete_timer _ (by simpa [updateDisplay] using hau)]
    cases hws : p.timer.isWorkSession <;>
      simp [switchSession, updateDisplay, getBreakDuration, hws, Nat.dvd_iff_mod_eq_zero]

/-- C8 at a failing input: the default controller in a browser without Web Audio is started
and ticks 1500 times; the completing tick is cut short by the throw of `playSound`, so the
controller is left idle at `timeRemaining = 0` in the Work session.  `start()` and one more
tick then decrement that 0: `updateDisplay` paints `timeRemaining = -1`, and the countdown
stays at -1 with the session counted a second time. -/
theorem C8_zero_is_decremented_without_audio :
    ((ticks 1500 (start (new false))).timer.timeRemaining = 0 ∧
      (ticks 1500 (start (new false))).timer.isRunning = false) ∧
    ((tick (start (ticks 1500 (start (new false))))).timer.timeRemaining = -1 ∧
      (tick (start (ticks 1500 (start (new false))))).timer.isWorkSession = true ∧
      (tick (start (ticks 1500 (start (new false))))).timer.completedPomodoros = 2 ∧
      ({ timeRemaining := -1, totalTime := 1500, isWorkSession := true } : Shown) ∈
        (tick (start (ticks 1500 (start (new false))))).displayed) := by
  have hc : completeSession (new false) = ticks 1500 (start (new false)) := rfl
  obtain ⟨c1, c2, -, c4, -⟩ := completeSession_of_no_audio (new false) rfl rfl rfl (by decide)
  rw [hc] at c1 c2 c4
  generalize ticks 1500 (start (new false)) = p at c1 c2 c4
  have hr : p.timer.isRunning = false := by rw [c1]
  obtain ⟨s1, s2, -, -, s5, s6⟩ := start_of_idle p hr
  have hne : (start p).intervals ≠ [] := by rw [s2]; simp
  have hle : (start p).timer.timeRemaining ≤ 1 := by rw [s1, c1]; simp
  have ht := tick_of_le_one (start p) hne hle
  obtain ⟨a1, -, a3, -⟩ := timerComplete_of_no_audio
    (updateDisplay { start p with timer :=
      { (start p).timer with timeRemaining := (start p).timer.timeRemaining - 1 } })
    (by simp [updateDisplay, s5, c4])
  refine ⟨⟨by rw [c1], hr⟩, ?_, ?_, ?_, ?_⟩
  · rw [ht, a1]; simp [updateDisplay, s1, c1, new, fresh]
  · rw [ht, a1]; simp [updateDisplay, s1, c1, new, fresh]
  · rw [ht, a1]; simp [updateDisplay, s1, c1, new, fresh]
  · rw [ht, a3]; simp [updateDisplay, s1, c1, new, fresh]

end Pomodoro

namespace Pomodoro

/-! ## The work and break cycle -/

/-- State after the work session number `k + 1` has completed, on an undisturbed cycle with
Web Audio available. -/
theorem afterWork_spec (w s l : Int) (hw : 0 < w) (hs : 0 < s) (hl : 0 < l) (k : Nat) :
    (afterWork (k + 1) (fresh true w s l)).timer.isWorkSession = false ∧
    (afterWork (k + 1) (fresh true w s l)).timer.completedPomodoros = k + 1 ∧
    (afterWork (k + 1) (fresh true w s l)).timer.totalTime = (if 4 ∣ k + 1 then l else s) ∧
    (afterWork (k + 1) (fresh true w s l)).timer.timeRemaining =
      (afterWork (k + 1) (fresh true w s l)).timer.totalTime ∧
    (afterWork (k + 1) (fresh true w s l)).timer.isRunning = false ∧
    (afterWork (k + 1) (fresh true w s l)).intervals = [] ∧
    (afterWork (k + 1) (fresh true w s l)).timer.workDuration = w ∧
    (afterWork (k + 1) (fresh true w s l)).timer.shortBreakDuration = s ∧
    (afterWork (k + 1) (fresh true w s l)).timer.longBreakDuration = l ∧
    (afterWork (k + 1) (fresh true w s l)).audio = true := by
  induction k with
  | zero =>
    obtain ⟨c1, c2, c3, c4, c5, c6, c7, c8, c9, c10⟩ :=
      completeSession_spec (fresh true w s l) rfl rfl rfl hw
    refine ⟨by rw [afterWork, c1]; rfl, by rw [afterWork, c2]; rfl, ?_, c4, c5, c6,
      by rw [afterWork, c7]; rfl, by rw [afterWork, c8]; rfl, by rw [afterWork, c9]; rfl, c10⟩
    rw [afterWork, c3]
    simp [fresh, updateDisplay]
  | succ k ih =>
    obtain ⟨i1, i2, i3, i4, i5, i6, i7, i8, i9, i10⟩ := ih
    have hpos : 0 < (afterWork (k + 1) (fresh true w s l)).timer.timeRemaining := by
      rw [i4, i3]; split <;> assumption
    obtain ⟨b1, b2, b3, b4, b5, b6, b7, b8, b9, b10⟩ :=
      completeSession_spec (afterWork (k + 1) (fresh true w s l)) i10 i5 i6 hpos
    rw [i1] at b1 b2 b3
    simp only [Bool.false_eq_true, if_false, Bool.not_false] at b1 b2 b3
    have hpos2 :
        0 < (completeSession (afterWork (k + 1) (fresh true w s l))).timer.timeRemaining := by
      rw [b4, b3, i7]; exact hw
    obtain ⟨c1, c2, c3, c4, c5, c6, c7, c8, c9, c10⟩ :=
      completeSession_spec (completeSession (afterWork (k + 1) (fresh true w s l)))
        b10 b5 b6 hpos2
    rw [b1] at c1 c2 c3
    simp only [if_true, Bool.not_true] at c1 c2 c3
    have hdef : afterWork (k + 1 + 1) (fresh true w s l) =
        completeSession (completeSession (afterWork (k + 1) (fresh true w s l))) := rfl
    rw [hdef]
    refine ⟨c1, by rw [c2, b2, i2], ?_, c4, c5, c6, by rw [c7, b7, i7], by rw [c8, b8, i8],
      by rw [c9, b9, i9], c10⟩
    rw [c3, b2, i2, b8, b9, i8, i9]
    simp only [Nat.dvd_iff_mod_eq_zero]

/-- With Web Audio available, on an undisturbed cycle from a fresh controller with positive
durations the break entered after the `k`-th completed work session, `k ≥ 1`, has
`totalTime = longBreakDuration` when `k` is a multiple of 4 and `shortBreakDuration`
otherwise. -/
theorem every_fourth_break_is_long_of_audio (w s l : Int) (hw : 0 < w) (hs : 0 < s)
    (hl : 0 < l) (k : Nat) (hk : 1 ≤ k) :
    (afterWork k (fresh true w s l)).timer.isWorkSession = false ∧
    (afterWork k (fresh true w s l)).timer.completedPomodoros = k ∧
    (afterWork k (fresh true w s l)).timer.totalTime = (if 4 ∣ k then l else s) := by
  obtain ⟨j, rfl⟩ : ∃ j, k = j + 1 := ⟨k - 1, by omega⟩
  have h := afterWork_spec w s l hw hs hl j
  exact ⟨h.1, h.2.1, h.2.2.1⟩

/-- C7 at a failing input: in a browser without Web Audio the default controller runs its
first work session to the end; `timerComplete` counts it and is then cut short by the throw
of `playSound`, so no break is entered: the controller stays in the Work session with
`totalTime = 1500` instead of a break with `totalTime = 300`.  Going on the same way never
enters a break: with durations of 2, 1 and 3 seconds the fourth round still ends in the Work
session with `totalTime = 2`, not in a break of 3 seconds. -/
theorem C7_no_break_entered_without_audio :
    ((afterWork 1 (new false)).timer.isWorkSession = true ∧
      (afterWork 1 (new false)).timer.completedPomodoros = 1 ∧
      (afterWork 1 (new false)).timer.totalTime = 1500 ∧
      (afterWork 1 (new false)).timer.shortBreakDuration = 300) ∧
    ((afterWork 4 (fresh false 2 1 3)).timer.isWorkSession = true ∧
      (afterWork 4 (fresh false 2 1 3)).timer.totalTime = 2 ∧
      (afterWork 4 (fresh false 2 1 3)).timer.longBreakDuration = 3) := by
  have hc : afterWork 1 (new false) = completeSession (new false) := rfl
  obtain ⟨c1, -⟩ := completeSession_of_no_audio (new false) rfl rfl rfl (by decide)
  refine ⟨?_, by decide⟩
  rw [hc, c1]
  exact ⟨rfl, rfl, rfl, rfl⟩

end Pomodoro

namespace Pomodoro

/-! ## Duration edits -/

/-- Break-duration edits change the two break durations and nothing else. -/
theorem run_breakEdits (edits : List Op) (hedits : ∀ op ∈ edits, op.isBreakEdit = true)
    (p : Page) :
    (run edits p).timer.timeRemaining = p.timer.timeRemaining ∧
    (run edits p).timer.totalTime = p.timer.totalTime ∧
    (run edits p).timer.isWorkSession = p.timer.isWorkSession ∧
    (run edits p).timer.completedPomodoros = p.timer.completedPomodoros ∧
    (run edits p).timer.isRunning = p.timer.isRunning ∧
    (run edits p).timer.workDuration = p.timer.workDuration ∧
    (run edits p).intervals = p.intervals := by
  induction edits generalizing p with
  | nil => exact ⟨rfl, rfl, rfl, rfl, rfl, rfl, rfl⟩
  | cons op rest ih =>
    have hrest := ih (fun o ho => hedits o (List.mem_cons_of_mem _ ho)) (step op p)
    have hop := hedits op (List.mem_cons_self _ _)
    have hstep : run (op :: rest) p = run rest (step op p) := rfl
    rw [hstep]
    cases op with
    | setShort v => simpa [step, shortBreakChange] using hrest
    | setLong v => simpa [step, longBreakChange] using hrest
    | start => simp [Op.isBreakEdit] at hop
    | pause => simp [Op.isBreakEdit] at hop
    | reset => simp [Op.isBreakEdit] at hop
    | skip => simp [Op.isBreakEdit] at hop
    | tick => simp [Op.isBreakEdit] at hop
    | setWork v => simp [Op.isBreakEdit] at hop

/-- A tick fired with more than one second left stays in the session. -/
theorem tick_within (p : Page) (h : 1 < p.timer.timeRemaining) :
    (tick p).timer.isWorkSession = p.timer.isWorkSession ∧
    (tick p).timer.totalTime = p.timer.totalTime ∧
    (tick p).timer.completedPomodoros = p.timer.completedPomodoros ∧
    (tick p).timer.shortBreakDuration = p.timer.shortBreakDuration ∧
    (tick p).timer.longBreakDuration = p.timer.longBreakDuration ∧
    (tick p).timer.timeRemaining ≤ p.timer.timeRemaining := by
  cases hi : p.intervals with
  | nil => simp [tick, hi]
  | cons a rest =>
    obtain ⟨t1, -⟩ := tick_timer_of_lt p (by rw [hi]; simp) h
    rw [t1]
    exact ⟨rfl, rfl, rfl, rfl, rfl, by simp only; omega⟩

/-- Within a session, `start`, `pause` and non-completing ticks keep the session kind, its
`totalTime`, the counter and the break durations, and never raise the countdown. -/
theorem run_within (ops : List Op) (p : Page) (h : staysInSession ops p = true) :
    (run ops p).timer.isWorkSession = p.timer.isWorkSession ∧
    (run ops p).timer.totalTime = p.timer.totalTime ∧
    (run ops p).timer.completedPomodoros = p.timer.completedPomodoros ∧
    (run ops p).timer.shortBreakDuration = p.timer.shortBreakDuration ∧
    (run ops p).timer.longBreakDuration = p.timer.longBreakDuration ∧
    (run ops p).timer.timeRemaining ≤ p.timer.timeRemaining := by
  induction ops generalizing p with
  | nil => exact ⟨rfl, rfl, rfl, rfl, rfl, le_refl _⟩
  | cons op rest ih =>
    have hstep : run (op :: rest) p = run rest (step op p) := rfl
    rw [hstep]
    cases op with
    | start =>
      have h2 : staysInSession rest (start p) = true := by simpa [staysInSession] using h
      obtain ⟨a, b, c, d, e, f⟩ := ih (start p) h2
      have hs : (start p).timer.isWorkSession = p.timer.isWorkSession ∧
          (start p).timer.totalTime = p.timer.totalTime ∧
          (start p).timer.completedPomodoros = p.timer.completedPomodoros ∧
          (start p).timer.shortBreakDuration = p.timer.shortBreakDuration ∧
          (start p).timer.longBreakDuration = p.timer.longBreakDuration ∧
          (start p).timer.timeRemaining = p.timer.timeRemaining := by
        cases hr : p.timer.isRunning <;> simp [start, setInterval, hr]
      obtain ⟨a2, b2, c2, d2, e2, f2⟩ := hs
      exact ⟨by rw [step, a, a2], by rw [step, b, b2], by rw [step, c, c2],
        by rw [step, d, d2], by rw [step, e, e2], by rw [step]; rw [f2] at f; exact f⟩
    | pause =>
      have h2 : staysInSession rest (pause p) = true := by simpa [staysInSession] using h
      obtain ⟨a, b, c, d, e, f⟩ := ih (pause p) h2
      have hs : (pause p).timer.isWorkSession = p.timer.isWorkSession ∧
          (pause p).timer.totalTime = p.timer.totalTime ∧
          (pause p).timer.completedPomodoros = p.timer.completedPomodoros ∧
          (pause p).timer.shortBreakDuration = p.timer.shortBreakDuration ∧
          (pause p).timer.longBreakDuration = p.timer.longBreakDuration ∧
          (pause p).timer.timeRemaining = p.timer.timeRemaining := by
        cases hid : p.timer.intervalId <;> simp [pause, clearInterval, hid]
      obtain ⟨a2, b2, c2, d2, e2, f2⟩ := hs
      exact ⟨by rw [step, a, a2], by rw [step, b, b2], by rw [step, c, c2],
        by rw [step, d, d2], by rw [step, e, e2], by rw [step]; rw [f2] at f; exact f⟩
    | tick =>
      have h2 : 1 < p.timer.timeRemaining ∧ staysInSession rest (tick p) = true := by
        simpa [staysInSession] using h
      obtain ⟨a, b, c, d, e, f⟩ := ih (tick p) h2.2
      obtain ⟨a2, b2, c2, d2, e2, f2⟩ := tick_within p h2.1
      exact ⟨by rw [step, a, a2], by rw [step, b, b2], by rw [step, c, c2],
        by rw [step, d, d2], by rw [step, e, e2], by rw [step]; exact le_trans f f2⟩
    | reset => simp [staysInSession] at h
    | skip => simp [staysInSession] at h
    | setWork v => simp [staysInSession] at h
    | setShort v => simp [staysInSession] at h
    | setLong v => simp [staysInSession] at h

theorem reset_timeRemaining (p : Page) :
    (reset p).timer.timeRemaining =
      (if p.timer.isWorkSession then p.timer.workDuration else getBreakDuration p.timer) := by
  cases hid : p.timer.intervalId <;> cases hw : p.timer.isWorkSession <;>
    simp [reset, pause, clearInterval, updateDisplay, getBreakDuration, hid, hw]

/-- C9 (as the code has it): in a break session entered with `totalTime = T`, editing the
short and/or long break duration changes neither `timeRemaining` nor `totalTime`; through any
later `start`, `pause` and non-completing ticks of that break the session stays a break with
`totalTime = T` and `timeRemaining ≤ T`; `reset()` reloads `timeRemaining` with the break
duration selected from the edited configuration, as does the next entry into a break through
`switchSession`. -/
theorem C9_break_edits_and_the_running_break (p : Page) (edits ops : List Op)
    (hb : p.timer.isWorkSession = false) (hT : p.timer.timeRemaining ≤ p.timer.totalTime)
    (hedits : ∀ op ∈ edits, op.isBreakEdit = true)
    (hops : staysInSession ops (run edits p) = true) :
    ((run edits p).timer.timeRemaining = p.timer.timeRemaining ∧
      (run edits p).timer.totalTime = p.timer.totalTime) ∧
    ((run ops (run edits p)).timer.isWorkSession = false ∧
      (run ops (run edits p)).timer.totalTime = p.timer.totalTime ∧
      (run ops (run edits p)).timer.timeRemaining ≤ p.timer.totalTime) ∧
    (reset (run ops (run edits p))).timer.timeRemaining =
      getBreakDuration (run edits p).timer ∧
    (switchSession (switchSession (run ops (run edits p)))).timer.totalTime =
      getBreakDuration (run edits p).timer := by
  obtain ⟨e1, e2, e3, e4, e5, e6, e7⟩ := run_breakEdits edits hedits p
  obtain ⟨r1, r2, r3, r4, r5, r6⟩ := run_within ops (run edits p) hops
  have hgb : getBreakDuration (run ops (run edits p)).timer =
      getBreakDuration (run edits p).timer := by
    simp only [getBreakDuration, r3, r4, r5]
  refine ⟨⟨e1, e2⟩, ⟨by rw [r1, e3, hb], by rw [r2, e2], ?_⟩, ?_, ?_⟩
  · rw [e1] at r6; exact le_trans r6 hT
  · rw [reset_timeRemaining, r1, e3, hb, ← hgb]; simp
  · rw [← hgb]
    have hw : (run ops (run edits p)).timer.isWorkSession = false := by rw [r1, e3, hb]
    simp [switchSession, updateDisplay, getBreakDuration, hw]

/-- Instance of C9: the first break of the default controller, the short break edited to
10 minutes, then started and ticked twice; `reset()` reloads 600 seconds. -/
theorem C9_witness :
    (skip (new true)).timer.isWorkSession = false ∧
    (reset (run [Op.start, Op.tick, Op.tick] (run [Op.setShort 10] (skip (new true))))).timer.timeRemaining
      = 600 := by
  have h := C9_break_edits_and_the_running_break (skip (new true)) [Op.setShort 10]
    [Op.start, Op.tick, Op.tick] (by decide) (by decide) (by decide) (by decide)
  refine ⟨by decide, ?_⟩
  rw [h.2.2.1]
  decide

/-- C9 as stated fails: the default controller enters its first break with `T = 300`; after
the short break is edited to 10 minutes, `reset()` gives `timeRemaining = 600 > T` while
still in that break. -/
theorem C9_counterexample :
    (skip (new true)).timer.isWorkSession = false ∧
    (skip (new true)).timer.totalTime = 300 ∧
    (run [Op.setShort 10, Op.reset] (skip (new true))).timer.isWorkSession = false ∧
    (run [Op.setShort 10, Op.reset] (skip (new true))).timer.timeRemaining = 600 ∧
    ¬ ((run [Op.setShort 10, Op.reset] (skip (new true))).timer.timeRemaining
        ≤ (skip (new true)).timer.totalTime) := by
  decide

/-! ## `totalTime` is not refreshed outside `switchSession` -/

/-- C3 at a failing input: the default controller is started, ticks once, the work duration
is edited to 30 minutes (ignored while running), and `reset()` is pressed.  Before the reset
`timeRemaining = 1499 ≤ totalTime = 1500`; after it `timeRemaining = 1800` while
`totalTime` is still 1500. -/
theorem C3_reset_leaves_totalTime_stale :
    (run [Op.start, Op.tick, Op.setWork 30] (new true)).timer.timeRemaining = 1499 ∧
    (run [Op.start, Op.tick, Op.setWork 30] (new true)).timer.totalTime = 1500 ∧
    (reset (run [Op.start, Op.tick, Op.setWork 30] (new true))).timer.timeRemaining = 1800 ∧
    (reset (run [Op.start, Op.tick, Op.setWork 30] (new true))).timer.totalTime = 1500 ∧
    (reset (run [Op.start, Op.tick, Op.setWork 30] (new true))).timer.timeRemaining ≠
      (reset (run [Op.start, Op.tick, Op.setWork 30] (new true))).timer.totalTime := by
  decide

/-- C4 at a failing input: editing the work duration of the idle default controller to
30 minutes gives `timeRemaining = 1800 > totalTime = 1500`, a progress ratio of 6/5. -/
theorem C4_work_edit_exceeds_totalTime :
    (run [Op.setWork 30] (new true)).timer.timeRemaining = 1800 ∧
    (run [Op.setWork 30] (new true)).timer.totalTime = 1500 ∧
    ¬ ((run [Op.setWork 30] (new true)).timer.timeRemaining ≤ (run [Op.setWork 30] (new true)).timer.totalTime) ∧
    progress (run [Op.setWork 30] (new true)).timer = 6 / 5 ∧
    ¬ (progress (run [Op.setWork 30] (new true)).timer ≤ 1) := by
  have h1 : (run [Op.setWork 30] (new true)).timer.timeRemaining = 1800 := by decide
  have h2 : (run [Op.setWork 30] (new true)).timer.totalTime = 1500 := by decide
  refine ⟨h1, h2, by decide, ?_, ?_⟩
  · rw [progress, h1, h2]; norm_num
  · rw [progress, h1, h2]; norm_num

end Pomodoro
